import Mathlib

/-!
Shallow embedding of `src/bridge.py` (the `scan_blocks` relay pipeline).

The script scans a recent block window of one chain for `Deposit` (source)
or `Unwrap` (destination) events and, for each decoded event, builds, signs
and submits a corresponding `wrap`/`withdraw` transaction on the other
chain via the warden account.  Network effects (log queries, warden nonce
fetches, raw-transaction submissions) are modelled as oracles supplied in
an environment; Python exceptions become explicit `Except`/outcome values.
Addresses, amounts, hashes and nonces are opaque pass-through values in
the script and are modelled as `Nat`.
-/

namespace Bridge

/-- Constant `BLOCKS_TO_SCAN = 5` from `bridge.py` line 18. -/
def BLOCKS_TO_SCAN : Nat := 5

/-- Constant `LOG_FETCH_BATCH_SIZE = 1` from `bridge.py` line 20. -/
def LOG_FETCH_BATCH_SIZE : Nat := 1

/-- The two chains of the bridge (`'source'` / `'destination'` strings in the
script). -/
inductive ChainRole
  | source
  | destination
deriving DecidableEq, Repr

/-- Failure of a log query (`BlockNotFound` or any other RPC exception in the
script's `except` clauses). -/
inductive FetchError
  | blockNotFound
  | connectivity
deriving DecidableEq, Repr

/-- Outcome of one build-sign-send of a transaction in the inner `try` block
(lines 255-278): success returns a transaction hash; `ContractLogicError`
(revert) and any other exception are caught and printed. -/
inductive SubmitOutcome
  | success (txHash : Nat)
  | revert
  | submissionError
deriving DecidableEq, Repr

/-- Whether a submission outcome reached `events_processed += 1` (line 267). -/
def SubmitOutcome.isSuccess : SubmitOutcome → Bool
  | .success _ => true
  | _ => false

/-- One raw decoded log entry as the script sees it (`event.event`,
`event.transactionHash`, `event.blockNumber`, `event.args`).  An argument
field the ABI did not populate is `none`: accessing it in Python raises
`AttributeError` (caught at line 280). -/
structure RawLog where
  event : String
  txHash : Nat
  logIndex : Nat
  blockNumber : Nat
  token : Option Nat
  user : Option Nat
  amount : Option Nat
  nonce : Option Nat
deriving DecidableEq, Repr

/-- The four event arguments read at lines 229-232. -/
structure BridgeArgs where
  token : Nat
  user : Nat
  amount : Nat
  nonce : Nat
deriving DecidableEq, Repr

/-- Reading `args.token`, `args.user`, `args.amount`, `args.nonce`
(lines 229-232); a missing field raises `AttributeError`, modelled as
`none`. -/
def decodeArgs (log : RawLog) : Option BridgeArgs :=
  match log.token, log.user, log.amount, log.nonce with
  | some t, some u, some a, some n => some ⟨t, u, a, n⟩
  | _, _, _, _ => none

/-- Contract function invoked on the target chain. -/
inductive TargetAction
  | wrap
  | withdraw
deriving DecidableEq, Repr

/-- The cross-chain call the dispatcher builds: target chain, contract
function, and its four arguments in the order the script passes them. -/
structure Call where
  target : ChainRole
  action : TargetAction
  token : Nat
  user : Nat
  amount : Nat
  nonce : Nat
deriving DecidableEq, Repr

/-- Event-to-target mapping of lines 237-252: `Deposit` builds
`destination_contract.functions.wrap(token, user, amount, nonce)`;
`Unwrap` builds `source_contract.functions.withdraw(token, user, amount,
nonce)`; any other event name is skipped with a warning. -/
def buildCall (eventName : String) (a : BridgeArgs) : Option Call :=
  if eventName = "Deposit" then
    some { target := .destination, action := .wrap,
           token := a.token, user := a.user, amount := a.amount, nonce := a.nonce }
  else if eventName = "Unwrap" then
    some { target := .source, action := .withdraw,
           token := a.token, user := a.user, amount := a.amount, nonce := a.nonce }
  else
    none

/-- Per-target-chain counters of how many dispatches have been issued so far
in this run; the k-th dispatch to a chain consumes the k-th responses of
that chain's oracles. -/
structure Counters where
  sourceCalls : Nat
  destCalls : Nat
deriving DecidableEq, Repr

/-- Number of dispatches issued so far to the given target chain. -/
def Counters.forChain (st : Counters) : ChainRole → Nat
  | .source => st.sourceCalls
  | .destination => st.destCalls

/-- Record one more dispatch to the given target chain. -/
def Counters.bump (st : Counters) : ChainRole → Counters
  | .source => { st with sourceCalls := st.sourceCalls + 1 }
  | .destination => { st with destCalls := st.destCalls + 1 }

/-- Oracles for the dispatch side: `nonceAt c k` is the warden account nonce
returned by the k-th `get_transaction_count(WARDEN_ADDRESS)` on chain `c`
(line 256), and `submitAt c k` the outcome of the k-th
`send_raw_transaction` on chain `c` (line 265). -/
structure DispatchEnv where
  nonceAt : ChainRole → Nat → Nat
  submitAt : ChainRole → Nat → SubmitOutcome

/-- One build-sign-send the script actually performed: the call built, the
warden nonce placed in the transaction, the submission outcome, and the
provenance `(txHash, logIndex)` of the raw log it came from. -/
structure Attempt where
  call : Call
  wardenNonce : Nat
  outcome : SubmitOutcome
  prov : Nat × Nat
deriving DecidableEq, Repr

/-- Logical event key `(role, nonce)`: a `wrap` call relays a `Deposit`
observed on the source chain, a `withdraw` call relays an `Unwrap` observed
on the destination chain. -/
def Attempt.key (a : Attempt) : ChainRole × Nat :=
  (match a.call.action with
    | .wrap => ChainRole.source
    | .withdraw => ChainRole.destination,
   a.call.nonce)

/-- Body of the `for event in all_events` loop (lines 222-285) for one event:
read the args (skip on `AttributeError`), map the event name to a target
call (skip unknown names), then fetch the warden nonce, build, sign and
send exactly once; every outcome of the send falls through to the next
event. -/
def processEvent (env : DispatchEnv) (st : Counters) (log : RawLog) :
    Counters × Option Attempt :=
  match decodeArgs log with
  | none => (st, none)
  | some a =>
    match buildCall log.event a with
    | none => (st, none)
    | some c =>
      let k := st.forChain c.target
      (st.bump c.target,
        some { call := c,
               wardenNonce := env.nonceAt c.target k,
               outcome := env.submitAt c.target k,
               prov := (log.txHash, log.logIndex) })

/-- The full processing loop over `all_events`: returns the final counters,
the list of attempts actually built and submitted (in order), and the
final value of `events_processed`, which is incremented only after a
successful `send_raw_transaction` (line 267). -/
def processEvents (env : DispatchEnv) : Counters → List RawLog → Counters × List Attempt × Nat
  | st, [] => (st, [], 0)
  | st, log :: rest =>
    match processEvent env st log with
    | (st1, none) => processEvents env st1 rest
    | (st1, some att) =>
      let r := processEvents env st1 rest
      (r.1, att :: r.2.1, (if att.outcome.isSuccess then 1 else 0) + r.2.2)

/-- Line 153: `start_block = max(0, latest_block - BLOCKS_TO_SCAN)` with
Python integer arithmetic. -/
def start_block (latest : Nat) : Nat :=
  (max 0 ((latest : Int) - (BLOCKS_TO_SCAN : Int))).toNat

/-- The destination-chain batched fetch loop (lines 187-215): starting at
`current`, fetch `[current, min (current + LOG_FETCH_BATCH_SIZE - 1) latest]`;
a `BlockNotFound` or any other exception only skips that batch; then move to
`batch_end_block + 1`, while `current <= latest`. -/
def fetchBatches (gl : Nat → Nat → Except FetchError (List RawLog))
    (current latest : Nat) : List RawLog :=
  if h : current ≤ latest then
    let batchEnd := min (current + LOG_FETCH_BATCH_SIZE - 1) latest
    have hlt : latest + 1 - (batchEnd + 1) < latest + 1 - current := by
      simp only [LOG_FETCH_BATCH_SIZE, batchEnd]
      omega
    match gl current batchEnd with
    | .ok logs => logs ++ fetchBatches gl (batchEnd + 1) latest
    | .error _ => fetchBatches gl (batchEnd + 1) latest
  else []
termination_by latest + 1 - current

/-- The sub-ranges `(current_block, batch_end_block)` visited by the same
loop (lines 188-215), in order. -/
def batchRanges (current latest : Nat) : List (Nat × Nat) :=
  if h : current ≤ latest then
    let batchEnd := min (current + LOG_FETCH_BATCH_SIZE - 1) latest
    have hlt : latest + 1 - (batchEnd + 1) < latest + 1 - current := by
      simp only [LOG_FETCH_BATCH_SIZE, batchEnd]
      omega
    (current, batchEnd) :: batchRanges (batchEnd + 1) latest
  else []
termination_by latest + 1 - current

/-- Environment of one `scan_blocks` invocation: the scanned chain's latest
block number (line 152), its log-query oracle (`get_all_entries` on source /
`get_logs` per batch on destination), and the dispatch-side oracles. -/
structure ScanEnv where
  latestBlock : Nat
  getLogs : Nat → Nat → Except FetchError (List RawLog)
  dispatch : DispatchEnv

/-- Event fetching phase of `scan_blocks` (lines 164-217): on the source
chain one query over the whole window whose failure is re-raised (line 181);
on the destination chain the batched loop whose per-batch failures are
skipped. -/
def scanFetch (chain : ChainRole) (env : ScanEnv) : Except FetchError (List RawLog) :=
  match chain with
  | .source => env.getLogs (start_block env.latestBlock) env.latestBlock
  | .destination => .ok (fetchBatches env.getLogs (start_block env.latestBlock) env.latestBlock)

/-- One full run of `scan_blocks` after setup: fetch, then process every
fetched event; yields the attempt trace and the `events_processed` count,
or the re-raised fetch error. -/
def scanRun (chain : ChainRole) (env : ScanEnv) : Except FetchError (List Attempt × Nat) :=
  match scanFetch chain env with
  | .error e => .error e
  | .ok logs =>
    let r := processEvents env.dispatch ⟨0, 0⟩ logs
    .ok (r.2.1, r.2.2)

/-- Return value of `scan_blocks` (line 295): `events_processed`, or the
propagated exception. -/
def scan_blocks (chain : ChainRole) (env : ScanEnv) : Except FetchError Nat :=
  match scanRun chain env with
  | .error e => .error e
  | .ok p => .ok p.2

/-- Attempt trace of one `scan_blocks` invocation (empty if the scan raised
before processing any event).  Two invocations of the script share no state,
so the attempts of two consecutive scans are the concatenation of each
run's trace. -/
def scanAttempts (chain : ChainRole) (env : ScanEnv) : List Attempt :=
  match scanRun chain env with
  | .error _ => []
  | .ok p => p.1

/-! ### Unfolding and structural lemmas -/

/-- Unfolding of one iteration of the batched fetch loop when the window is
not yet exhausted (`LOG_FETCH_BATCH_SIZE = 1` makes every batch one block). -/
theorem fetchBatches_cons (gl : Nat → Nat → Except FetchError (List RawLog))
    {c l : Nat} (h : c ≤ l) :
    fetchBatches gl c l =
      match gl c c with
      | .ok logs => logs ++ fetchBatches gl (c + 1) l
      | .error _ => fetchBatches gl (c + 1) l := by
  have hmin : min (c + LOG_FETCH_BATCH_SIZE - 1) l = c := by
    simp only [LOG_FETCH_BATCH_SIZE]; omega
  rw [fetchBatches]
  simp only [dif_pos h, hmin]

/-- The batched fetch loop stops once `current > latest`. -/
theorem fetchBatches_nil (gl : Nat → Nat → Except FetchError (List RawLog))
    {c l : Nat} (h : ¬ c ≤ l) :
    fetchBatches gl c l = [] := by
  rw [fetchBatches]
  simp only [dif_neg h]

/-- Unfolding of one iteration of the sub-range trace. -/
theorem batchRanges_cons {c l : Nat} (h : c ≤ l) :
    batchRanges c l = (c, c) :: batchRanges (c + 1) l := by
  have hmin : min (c + LOG_FETCH_BATCH_SIZE - 1) l = c := by
    simp only [LOG_FETCH_BATCH_SIZE]; omega
  rw [batchRanges]
  simp only [dif_pos h, hmin]

/-- The sub-range trace stops once `current > latest`. -/
theorem batchRanges_nil {c l : Nat} (h : ¬ c ≤ l) :
    batchRanges c l = [] := by
  rw [batchRanges]
  simp only [dif_neg h]

/-- With one-block batches, the loop visits exactly the ranges `(b, b)` for
each block `b` of the window. -/
theorem batchRanges_eq_range' (c l : Nat) :
    batchRanges c l = (List.range' c (l + 1 - c)).map (fun b => (b, b)) := by
  suffices h : ∀ n c, l + 1 - c = n →
      batchRanges c l = (List.range' c n).map (fun b => (b, b)) from
    h (l + 1 - c) c rfl
  intro n
  induction n with
  | zero =>
    intro c hc
    rw [batchRanges_nil (by omega)]
    rfl
  | succ n ih =>
    intro c hc
    have hcl : c ≤ l := by omega
    rw [batchRanges_cons hcl, List.range'_succ, List.map_cons]
    exact congrArg _ (ih (c + 1) (by omega))

/-- Helper: a succeeding one-block query's events survive into the combined
fetch result no matter what the other batches do. -/
theorem mem_fetchBatches_aux (gl : Nat → Nat → Except FetchError (List RawLog))
    (x : RawLog) (l : Nat) :
    ∀ d s, s + d ≤ l →
      (∃ L, gl (s + d) (s + d) = .ok L ∧ x ∈ L) →
      x ∈ fetchBatches gl s l := by
  intro d
  induction d with
  | zero =>
    intro s hsl hL
    obtain ⟨L, hok, hx⟩ := hL
    rw [fetchBatches_cons gl (by omega)]
    simp only [Nat.add_zero] at hok
    rw [hok]
    exact List.mem_append_left _ hx
  | succ d ih =>
    intro s hsl hL
    have hmem : x ∈ fetchBatches gl (s + 1) l := by
      have he : s + (d + 1) = (s + 1) + d := by omega
      rw [he] at hsl hL
      exact ih (s + 1) hsl hL
    rw [fetchBatches_cons gl (by omega)]
    cases hgl : gl s s with
    | ok logs => exact List.mem_append_right _ hmem
    | error e => exact hmem

/-- Helper: the start of the window never exceeds the latest block. -/
theorem start_block_le (latest : Nat) : start_block latest ≤ latest := by
  unfold start_block BLOCKS_TO_SCAN
  omega

/-- Helper: consecutive integers in `range'` satisfy the successor chain. -/
theorem chain'_succ_range' (n : Nat) :
    ∀ s : Nat, List.Chain' (fun a b : Nat => b = a + 1) (List.range' s n) := by
  induction n with
  | zero => intro s; simp
  | succ n ih =>
    intro s
    rw [List.range'_succ]
    cases n with
    | zero => simp
    | succ m =>
      rw [List.range'_succ]
      refine List.Chain'.cons rfl ?_
      rw [← List.range'_succ]
      exact ih (s + 1)

/-- Helper: how many blocks of `range' s n` lie in the degenerate interval
`[b, b]`. -/
theorem countP_range'_window (b : Nat) :
    ∀ n s, (List.range' s n).countP (fun q => decide (q ≤ b ∧ b ≤ q)) =
      if s ≤ b ∧ b < s + n then 1 else 0 := by
  intro n
  induction n with
  | zero =>
    intro s
    simp only [List.range', List.countP_nil]
    split_ifs <;> omega
  | succ n ih =>
    intro s
    rw [List.range'_succ, List.countP_cons, ih (s + 1)]
    simp only [decide_eq_true_eq]
    split_ifs <;> omega

/-! ### Concrete scenarios used by the refuting theorems -/

/-- A well-formed `Deposit` raw log: token `1`, user `2`, amount `100`,
nonce `7`, in block `9` of transaction `55` at log index `3`. -/
def depositLog7 : RawLog :=
  { event := "Deposit", txHash := 55, logIndex := 3, blockNumber := 9,
    token := some 1, user := some 2, amount := some 100, nonce := some 7 }

/-- Dispatch oracles for the duplicate-admission scenario: the k-th warden
nonce fetch on any chain returns `40 + k` and every submission succeeds. -/
def okDispatch : DispatchEnv :=
  { nonceAt := fun _ k => 40 + k, submitAt := fun _ _ => .success 99 }

/-- Source-chain scan whose window query returns the single deposit event
`depositLog7`; every submission succeeds.  Running the scan twice models
two consecutive invocations over overlapping windows that both see the same
log entry. -/
def dupScanEnv : ScanEnv :=
  { latestBlock := 10, getLogs := fun _ _ => .ok [depositLog7], dispatch := okDispatch }

/-- Source-chain scan whose window query returns the same raw log entry
twice, i.e. two entries sharing `(txHash, logIndex) = (55, 3)`. -/
def dupLogEnv : ScanEnv :=
  { latestBlock := 10, getLogs := fun _ _ => .ok [depositLog7, depositLog7],
    dispatch := okDispatch }

/-- Source-chain scan with one deposit event whose submission raises a
transient error. -/
def transientEnv : ScanEnv :=
  { latestBlock := 10, getLogs := fun _ _ => .ok [depositLog7],
    dispatch := { nonceAt := fun _ k => 40 + k, submitAt := fun _ _ => .submissionError } }

/-- Source-chain scan with one deposit event whose submission reverts
(`ContractLogicError`). -/
def revertEnv : ScanEnv :=
  { latestBlock := 10, getLogs := fun _ _ => .ok [depositLog7],
    dispatch := { nonceAt := fun _ k => 40 + k, submitAt := fun _ _ => .revert } }

/-- Source-chain scan whose single full-window query fails with a
connectivity error. -/
def fatalSourceEnv : ScanEnv :=
  { latestBlock := 12, getLogs := fun _ _ => .error .connectivity, dispatch := okDispatch }

/-- A well-formed `Unwrap` raw log found in block `11`. -/
def isoLog : RawLog :=
  { event := "Unwrap", txHash := 77, logIndex := 0, blockNumber := 11,
    token := some 1, user := some 2, amount := some 5, nonce := some 8 }

/-- Log oracle for the batch-isolation scenario: the one-block query at
block `11` succeeds with `isoLog`; every other query (in particular
`[10, 10]`) fails transiently. -/
def isoGetLogs : Nat → Nat → Except FetchError (List RawLog) :=
  fun f _ => if f = 11 then .ok [isoLog] else .error .connectivity

/-- Destination-chain scan environment over window `[6, 11]` using
`isoGetLogs`. -/
def isoEnv : ScanEnv :=
  { latestBlock := 11, getLogs := isoGetLogs, dispatch := okDispatch }

/-- A `Deposit` raw log whose `token` argument field is missing, so reading
`args.token` raises `AttributeError`. -/
def badLog : RawLog :=
  { event := "Deposit", txHash := 60, logIndex := 1, blockNumber := 9,
    token := none, user := some 2, amount := some 3, nonce := some 4 }

/-- Source-chain scan whose window query finds no matching logs. -/
def emptyScanEnv : ScanEnv :=
  { latestBlock := 3, getLogs := fun _ _ => .ok [], dispatch := okDispatch }

/-! ### Claim theorems -/

/-- C4: the scan's start block is `max(0, latest - BLOCKS_TO_SCAN)` with
lookback 5; for `latest = 3` it is `0`, and it is never negative. -/
theorem start_block_clamps :
    (∀ latest : Nat, (start_block latest : Int) = max 0 ((latest : Int) - (BLOCKS_TO_SCAN : Int)))
      ∧ start_block 3 = 0 ∧ BLOCKS_TO_SCAN = 5 ∧ ∀ latest : Nat, 0 ≤ (start_block latest : Int) := by
  refine ⟨fun latest => ?_, by decide, rfl, fun latest => Int.ofNat_nonneg _⟩
  unfold start_block
  rw [Int.toNat_of_nonneg (le_max_left 0 _)]

/-- C3: a successfully decoded event is mapped to exactly the spec's target
call with the event's own arguments: a `Deposit` yields
`wrap(token, user, amount, nonce)` on the destination chain, an `Unwrap`
yields `withdraw(token, user, amount, nonce)` on the source chain. -/
theorem dispatch_maps_event_to_target (env : DispatchEnv) (st : Counters)
    (log : RawLog) (a : BridgeArgs) (h : decodeArgs log = some a) :
    (log.event = "Deposit" →
      ((processEvent env st log).2.map Attempt.call) =
        some { target := .destination, action := .wrap,
               token := a.token, user := a.user, amount := a.amount, nonce := a.nonce })
    ∧ (log.event = "Unwrap" →
      ((processEvent env st log).2.map Attempt.call) =
        some { target := .source, action := .withdraw,
               token := a.token, user := a.user, amount := a.amount, nonce := a.nonce }) := by
  constructor <;> intro he <;> simp [processEvent, h, buildCall, he]

/-- Witness for C3: `Deposit{token=1, account=2, amount=100, nonce=7}` is
dispatched as `wrap(1, 2, 100, 7)` on the destination chain. -/
theorem dispatch_maps_event_to_target_witness :
    ((processEvent okDispatch ⟨0, 0⟩ depositLog7).2.map Attempt.call) =
      some { target := .destination, action := .wrap,
             token := 1, user := 2, amount := 100, nonce := 7 } :=
  (dispatch_maps_event_to_target okDispatch ⟨0, 0⟩ depositLog7 ⟨1, 2, 100, 7⟩ rfl).1 rfl

/-- C1 (refutation): the script keeps no relay ledger and performs no
admission check, so the same logical event `(Source, 7)` seen by two
consecutive overlapping scans is built and submitted twice: the combined
attempt trace of the two runs holds two admitted relay attempts for that
key, not at most one. -/
theorem no_admission_check_double_relay :
    ((scanAttempts .source dupScanEnv ++ scanAttempts .source dupScanEnv).countP
        (fun a => decide (a.key = (ChainRole.source, 7)))) = 2 := by
  rfl

/-- C2 (refutation): the scan never deduplicates by `(tx_hash, log_index)`:
when the window query returns the same raw log entry twice, both copies are
processed and two transactions are built and submitted for the single pair
`(55, 3)` within one scan. -/
theorem no_dedup_double_build :
    ((scanAttempts .source dupLogEnv).countP (fun a => decide (a.prov = (55, 3)))) = 2 := by
  rfl

/-- C6 (refutation): a transient submission failure is not retried at all:
the run makes exactly one build-sign-send attempt (one warden nonce fetch,
nonce `40`), leaves `events_processed` at `0`, and records nothing. -/
theorem transient_failure_not_retried :
    scanRun .source transientEnv =
      .ok ([{ call := { target := .destination, action := .wrap,
                        token := 1, user := 2, amount := 100, nonce := 7 },
              wardenNonce := 40, outcome := .submissionError, prov := (55, 3) }], 0) := by
  rfl

/-- C7 (refutation): a reverted submission is not recorded anywhere, so the
same event is dispatched again by the next overlapping scan: the first run's
only attempt reverts, yet the combined trace of two consecutive runs holds
two attempts for the key `(Source, 7)`. -/
theorem revert_retried_on_next_scan :
    scanAttempts .source revertEnv =
        [{ call := { target := .destination, action := .wrap,
                     token := 1, user := 2, amount := 100, nonce := 7 },
           wardenNonce := 40, outcome := .revert, prov := (55, 3) }]
      ∧ ((scanAttempts .source revertEnv ++ scanAttempts .source revertEnv).countP
          (fun a => decide (a.key = (ChainRole.source, 7)))) = 2 := by
  exact ⟨rfl, rfl⟩

/-- C5 (refutation of the claim as stated for every role): on a
source-chain scan the single window query's failure is re-raised, so the
scan aborts with the error and returns no events at all — it is fatal, not
skipped. -/
theorem source_fetch_failure_fatal :
    scan_blocks .source fatalSourceEnv = .error .connectivity
      ∧ scanAttempts .source fatalSourceEnv = [] :=
  ⟨rfl, rfl⟩

/-- C5 (amended): on destination-chain scans a failing sub-range is skipped
and never fatal — the scan always completes normally — and the events of any
succeeding one-block sub-range inside the window are still returned,
whatever the other sub-ranges did. -/
theorem dest_batch_isolation :
    (∀ env : ScanEnv, ∃ p, scanRun .destination env = .ok p)
    ∧ ∀ (gl : Nat → Nat → Except FetchError (List RawLog)) (s l b : Nat)
        (L : List RawLog) (x : RawLog),
        s ≤ b → b ≤ l → gl b b = .ok L → x ∈ L → x ∈ fetchBatches gl s l := by
  constructor
  · intro env
    exact ⟨_, rfl⟩
  · intro gl s l b L x hsb hbl hok hx
    refine mem_fetchBatches_aux gl x l (b - s) s (by omega) ⟨L, ?_, hx⟩
    have he : s + (b - s) = b := by omega
    rw [he]
    exact hok

/-- Witness for the amended C5: with sub-range `[10, 10]` failing
transiently and `[11, 11]` succeeding, the destination scan completes and
the event of `[11, 11]` is still returned. -/
theorem dest_batch_isolation_witness :
    (∃ p, scanRun .destination isoEnv = .ok p) ∧ isoLog ∈ fetchBatches isoGetLogs 10 11 :=
  ⟨dest_batch_isolation.1 isoEnv,
   dest_batch_isolation.2 isoGetLogs 10 11 11 [isoLog] isoLog (by decide) (by decide)
     rfl (List.mem_singleton.mpr rfl)⟩

/-- C8: a fetched raw log missing an expected argument field is dropped and
only that event is dropped: processing the batch with the undecodable log
is identical to processing the batch without it — same attempts, same
count, never fatal. -/
theorem decode_failure_skips_event (env : DispatchEnv) (st : Counters)
    (l1 l2 : List RawLog) (bad : RawLog) (h : decodeArgs bad = none) :
    processEvents env st (l1 ++ bad :: l2) = processEvents env st (l1 ++ l2) := by
  induction l1 generalizing st with
  | nil =>
    simp only [List.nil_append]
    show processEvents env st (bad :: l2) = processEvents env st l2
    simp [processEvents, processEvent, h]
  | cons x t ih =>
    rcases hpe : processEvent env st x with ⟨st1, oatt⟩
    cases oatt <;>
      simp only [List.cons_append, processEvents, hpe, List.append_eq] <;>
      rw [ih]

/-- Witness for C8: a `Deposit` log with no `token` field is dropped and the
two surrounding events are processed as if it were absent. -/
theorem decode_failure_skips_event_witness :
    decodeArgs badLog = none
      ∧ processEvents okDispatch ⟨0, 0⟩ ([depositLog7] ++ badLog :: [depositLog7]) =
          processEvents okDispatch ⟨0, 0⟩ ([depositLog7] ++ [depositLog7]) :=
  ⟨rfl, decode_failure_skips_event okDispatch ⟨0, 0⟩ [depositLog7] [depositLog7] badLog rfl⟩

/-- Helper: `events_processed` counts exactly the successful submissions of
the attempt trace, and there is at most one attempt per fetched event. -/
theorem processEvents_count (env : DispatchEnv) (logs : List RawLog) :
    ∀ st : Counters,
      (processEvents env st logs).2.2 =
        (processEvents env st logs).2.1.countP (fun a => a.outcome.isSuccess)
      ∧ (processEvents env st logs).2.1.length ≤ logs.length := by
  induction logs with
  | nil => intro st; simp [processEvents]
  | cons x t ih =>
    intro st
    rcases hpe : processEvent env st x with ⟨st1, oatt⟩
    cases oatt with
    | none =>
      simp only [processEvents, hpe]
      exact ⟨(ih st1).1, Nat.le_succ_of_le (ih st1).2⟩
    | some att =>
      simp only [processEvents, hpe, List.countP_cons, List.length_cons]
      constructor
      · rw [(ih st1).1]
        cases h : att.outcome.isSuccess <;> simp [h, Nat.add_comm]
      · exact Nat.succ_le_succ (ih st1).2

/-- C9: `scan_blocks` returns `events_processed`, the number of events whose
raw-transaction submission succeeded during the run; it is at most the
number of fetched events, and a scan whose fetched range holds no matching
logs returns `0` normally, not as an error. -/
theorem scan_returns_success_count (chain : ChainRole) (env : ScanEnv)
    (logs : List RawLog) (h : scanFetch chain env = .ok logs) :
    ∃ tr : List Attempt,
      scanRun chain env = .ok (tr, tr.countP (fun a => a.outcome.isSuccess))
      ∧ scan_blocks chain env = .ok (tr.countP (fun a => a.outcome.isSuccess))
      ∧ tr.length ≤ logs.length
      ∧ tr.countP (fun a => a.outcome.isSuccess) ≤ logs.length
      ∧ (logs = [] → tr = [] ∧ scan_blocks chain env = .ok 0) := by
  have hc := processEvents_count env.dispatch logs ⟨0, 0⟩
  refine ⟨(processEvents env.dispatch ⟨0, 0⟩ logs).2.1, ?_, ?_, hc.2,
    le_trans (List.countP_le_length _) hc.2, ?_⟩
  · simp only [scanRun, h]
    rw [hc.1]
  · simp only [scan_blocks, scanRun, h]
    rw [hc.1]
  · intro hnil
    subst hnil
    refine ⟨rfl, ?_⟩
    simp only [scan_blocks, scanRun, h]
    rfl

/-- Witness for C9: a source scan over a window with no matching logs
returns `0` and no error. -/
theorem scan_returns_success_count_witness :
    ∃ tr : List Attempt,
      scanRun .source emptyScanEnv = .ok (tr, tr.countP (fun a => a.outcome.isSuccess))
      ∧ scan_blocks .source emptyScanEnv = .ok (tr.countP (fun a => a.outcome.isSuccess))
      ∧ tr.length ≤ ([] : List RawLog).length
      ∧ tr.countP (fun a => a.outcome.isSuccess) ≤ ([] : List RawLog).length
      ∧ (([] : List RawLog) = [] → tr = [] ∧ scan_blocks .source emptyScanEnv = .ok 0) :=
  scan_returns_success_count .source emptyScanEnv [] rfl

/-- C10: the destination batching loop partitions the clamped window
`[max(0, latest - 5), latest]` into contiguous, disjoint sub-ranges covering
every block exactly once: each sub-range's end is
`min (start + LOG_FETCH_BATCH_SIZE - 1) latest`, each next sub-range starts
one past the previous end, every block of the window lies in exactly one
sub-range, and the loop ends with the sub-range finishing at `latest`. -/
theorem dest_batching_partitions (latest : Nat) :
    (∀ r ∈ batchRanges (start_block latest) latest,
        r.2 = min (r.1 + LOG_FETCH_BATCH_SIZE - 1) latest
          ∧ start_block latest ≤ r.1 ∧ r.2 ≤ latest)
    ∧ List.Chain' (fun p q => q.1 = p.2 + 1) (batchRanges (start_block latest) latest)
    ∧ (∀ b, start_block latest ≤ b → b ≤ latest →
        (batchRanges (start_block latest) latest).countP
          (fun r => decide (r.1 ≤ b ∧ b ≤ r.2)) = 1)
    ∧ (batchRanges (start_block latest) latest).getLast? = some (latest, latest) := by
  have hs := start_block_le latest
  rw [batchRanges_eq_range']
  refine ⟨?_, ?_, ?_, ?_⟩
  · intro r hr
    obtain ⟨b, hb, rfl⟩ := List.mem_map.mp hr
    obtain ⟨hb1, hb2⟩ := List.mem_range'_1.mp hb
    simp only [LOG_FETCH_BATCH_SIZE]
    omega
  · exact (List.chain'_map _).mpr (chain'_succ_range' _ _)
  · intro b hb1 hb2
    rw [List.countP_map]
    show (List.range' _ _).countP (fun q => decide (q ≤ b ∧ b ≤ q)) = 1
    rw [countP_range'_window]
    rw [if_pos ⟨hb1, by omega⟩]
  · rw [List.getLast?_map, List.getLast?_range']
    rw [if_neg (by omega)]
    have he : start_block latest + (latest + 1 - start_block latest) - 1 = latest := by
      omega
    simp only [Option.map_some', he]

/-- Witness for C10: in the window for `latest = 7` (start block `2`),
block `5` lies in exactly one sub-range of the loop. -/
theorem dest_batching_partitions_witness :
    (batchRanges (start_block 7) 7).countP (fun r => decide (r.1 ≤ 5 ∧ 5 ≤ r.2)) = 1 :=
  (dest_batching_partitions 7).2.2.1 5 (by decide) (by decide)

end Bridge
